import Mathlib

/-!
Verification of the multi-tenant club-membership application (FastAPI +
PostgreSQL schema-per-tenant).  The definitions below are shallow embeddings
of the functions in `src/database.py`, `src/cli_migrations.py`,
`src/utils/auth.py`, `src/main.py` and `src/models.py`.  External effects
(the database catalog, the shared `users` table, migration state) are made
explicit as state arguments; fallible code returns `Except`.
-/

namespace JK

/-! ## Schema-name validation (`src/database.py`, `validate_schema_name`) -/

/-- Characters admitted by the character class `[A-Za-z0-9_]`. -/
def isWordChar (c : Char) : Bool :=
  (('A' ≤ c) && (c ≤ 'Z')) || (('a' ≤ c) && (c ≤ 'z')) ||
  (('0' ≤ c) && (c ≤ '9')) || (c == '_')

/-- Truthiness of Python `re.match(r"^[A-Za-z0-9_]+$", name)`.
Without `re.MULTILINE`, `$` matches either at the very end of the string or
just before a single trailing `'\n'`, so the regex also accepts a word run
followed by one final newline. -/
def reMatchWordPlus (name : String) : Bool :=
  let cs := name.data
  let core := if cs.getLast? == some '\n' then cs.dropLast else cs
  (!core.isEmpty) && core.all isWordChar

/-- `validate_schema_name` (src/database.py:47): raises `ValueError` when the
regex does not match. -/
def validate_schema_name (name : String) : Except String Unit :=
  if reMatchWordPlus name then Except.ok ()
  else Except.error
    "Invalid schema name. Only letters, numbers and underscore are allowed."

/-! ## Schema creation (`ensure_schema_exists`)

The database catalog is modelled as the list of existing schema names;
`CREATE SCHEMA IF NOT EXISTS` appends the name when absent and does nothing
when present. -/

/-- `ensure_schema_exists` (src/database.py:56): validate, then issue
`CREATE SCHEMA IF NOT EXISTS "{schema_name}"`. -/
def ensure_schema_exists (schema_name : String) (catalog : List String) :
    Except String (List String) :=
  match validate_schema_name schema_name with
  | Except.error e => Except.error e
  | Except.ok () =>
      Except.ok (if schema_name ∈ catalog then catalog
                 else catalog ++ [schema_name])

/-! ## Migration-marker state (`src/cli_migrations.py`) -/

/-- State touched by the migration CLI: which schemas already have an
`alembic_version` table, and the version row each schema's table holds. -/
structure MigState where
  markerTables : List String
  versions : List (String × String)
  deriving Repr, DecidableEq

/-- `ensure_alembic_version_table` (src/cli_migrations.py:57): query
`information_schema.tables` for `alembic_version` in the schema and create
`"{schema}".alembic_version(version_num VARCHAR(32) PRIMARY KEY)` only when
it is missing. -/
def ensure_alembic_version_table (schema_name : String) (st : MigState) :
    MigState :=
  if schema_name ∈ st.markerTables then st
  else { st with markerTables := st.markerTables ++ [schema_name] }

/-! ## Session factory (`src/database.py`, `get_db` / `get_tenant_db`)

A request is modelled by the three places a tenant hint can live; each is
`Option String` because Python distinguishes an absent value (`None`) from a
present one, and separately tests truthiness (`""` is falsy). -/

/-- `SHARED_SCHEMA` (src/models.py:45). -/
def SHARED_SCHEMA : String := "shared"

structure RequestCtx where
  /-- `request.state.tenant`, set by `AuthMiddleware` from the JWT claim. -/
  stateTenant : Option String
  /-- `request.headers.get("X-Tenant")`. -/
  headerTenant : Option String
  /-- `request.query_params.get("tenant")`. -/
  queryTenant : Option String
  deriving Repr, DecidableEq

/-- Python truthiness of an optional string: `None` and `""` are falsy. -/
def truthy : Option String → Bool
  | none => false
  | some s => !s.isEmpty

/-- Python `a or b` on optional strings: `a` when truthy, else `b`. -/
def pyOr (a b : Option String) : Option String := if truthy a then a else b

/-- The value of the local variable `tenant` in `get_db`
(src/database.py:201-215) just before the `if tenant:` test:
`request.state.tenant` when truthy, else `headers.get("X-Tenant") or
query_params.get("tenant")`, else `os.environ.get("DEFAULT_TENANT_SCHEMA")`. -/
def tenantVar (req : Option RequestCtx) (envDefault : Option String) :
    Option String :=
  let t : Option String :=
    match req with
    | some r => if truthy r.stateTenant then r.stateTenant else none
    | none => none
  let t : Option String :=
    if truthy t then t
    else match req with
         | some r => pyOr r.headerTenant r.queryTenant
         | none => t
  if truthy t then t else envDefault

/-- The tenant `get_db` actually acts on: the `tenant` variable when it is
truthy (the `if tenant:` guard), and none otherwise (anonymous session). -/
def resolvedTenant (req : Option RequestCtx) (envDefault : Option String) :
    Option String :=
  match tenantVar req envDefault with
  | some s => if s.isEmpty then none else some s
  | none => none

/-- How a run of the session generator ends. -/
inductive SessionEnd where
  /-- Control reached `yield db`; `searchPath` is the session's schema search
  order (`none` = engine default, untouched). -/
  | yielded (searchPath : Option (List String))
  /-- `HTTPException(status_code=400, detail="Invalid tenant identifier")`. -/
  | invalidTenant
  /-- The `CREATE SCHEMA` DDL raised at the database layer and the exception
  propagated out of the generator. -/
  | ddlFailed
  deriving Repr, DecidableEq

/-- Observable effects of one run of the generator. -/
structure SessionRun where
  outcome : SessionEnd
  /-- a session was taken from `SessionLocal()` -/
  opened : Bool
  /-- `db.close()` ran on the exit path taken -/
  closed : Bool
  deriving Repr, DecidableEq

/-- `get_db` (src/database.py:188).  `ddlOk s` tells whether
`CREATE SCHEMA IF NOT EXISTS "s"` succeeds at the database layer.  Every
branch ends with `closed := true` because the body is a
`try: ... yield db finally: db.close()` (the 400 branch additionally calls
`db.close()` explicitly before raising). -/
def get_db (ddlOk : String → Bool) (req : Option RequestCtx)
    (envDefault : Option String) : SessionRun :=
  match tenantVar req envDefault with
  | some s =>
      if s.isEmpty then
        { outcome := SessionEnd.yielded none, opened := true, closed := true }
      else
        match validate_schema_name s with
        | Except.error _ =>
            { outcome := SessionEnd.invalidTenant, opened := true,
              closed := true }
        | Except.ok () =>
            if ddlOk s then
              { outcome :=
                  SessionEnd.yielded (some [s, SHARED_SCHEMA, "public"]),
                opened := true, closed := true }
            else
              { outcome := SessionEnd.ddlFailed, opened := true,
                closed := true }
  | none =>
      { outcome := SessionEnd.yielded none, opened := true, closed := true }

/-- `get_tenant_db` (src/database.py:232).  Validation happens before
`SessionLocal()`, so an invalid name raises with no session opened. -/
def get_tenant_db (ddlOk : String → Bool) (tenant_schema : String) :
    SessionRun :=
  match validate_schema_name tenant_schema with
  | Except.error _ =>
      { outcome := SessionEnd.invalidTenant, opened := false, closed := false }
  | Except.ok () =>
      if ddlOk tenant_schema then
        { outcome :=
            SessionEnd.yielded
              (some [tenant_schema, SHARED_SCHEMA, "public"]),
          opened := true, closed := true }
      else
        { outcome := SessionEnd.ddlFailed, opened := true, closed := true }

/-! ## Migration orchestrator (`src/cli_migrations.py`, `upgrade_schema` /
`cmd_upgrade`)

`migrate s rev` is the oracle for `command.upgrade` scoped to schema `s`:
on success it returns the revision the schema ends at, on failure the
exception message `str(e)`.  A Python `dict` keyed by schema is an ordered
association list with in-place update (`upsert`). -/

/-- In-place update of a Python-dict-like association list: replace the
first entry with the given key, or append when the key is absent. -/
def upsert (k v : String) : List (String × String) → List (String × String)
  | [] => [(k, v)]
  | (k', v') :: rest =>
      if k' = k then (k, v) :: rest else (k', v') :: upsert k v rest

/-- `upgrade_schema` (src/cli_migrations.py:106): ensure the marker table,
run the migration tool, and return `(success, error_message)`; on success
the schema's `alembic_version` row now holds the new revision. -/
def upgrade_schema (migrate : String → String → Except String String)
    (schema_name revision : String) (st : MigState) :
    (Bool × Option String) × MigState :=
  let st1 := ensure_alembic_version_table schema_name st
  match migrate schema_name revision with
  | Except.ok newVer =>
      ((true, none),
       { st1 with versions := upsert schema_name newVer st1.versions })
  | Except.error e => ((false, some e), st1)

/-- The string `cmd_upgrade` records for a schema in its summary dict. -/
def statusString : Except String String → String
  | Except.ok _ => "Success"
  | Except.error e => "Failed: " ++ e

/-- The `for schema in schemas:` loop of `cmd_upgrade` under `--all`
(src/cli_migrations.py:282-286). -/
def upgradeAllLoop (migrate : String → String → Except String String)
    (revision : String) :
    List String → List (String × String) → MigState →
      List (String × String) × MigState
  | [], summary, st => (summary, st)
  | schema :: rest, summary, st =>
      match upgrade_schema migrate schema revision st with
      | ((success, error), st') =>
          upgradeAllLoop migrate revision rest
            (upsert schema
              (if success then "Success" else "Failed: " ++ error.getD "None")
              summary)
            st'

/-- `cmd_upgrade` with `--all` (src/cli_migrations.py:273-301): returns the
summary dict, the process exit code, and the final migration state.  An
empty schema list prints "No tenant schemas found." and returns (exit 0);
otherwise exit code is 1 exactly when the failed-list is non-empty. -/
def cmd_upgrade_all (migrate : String → String → Except String String)
    (revision : String) (schemas : List String) (st : MigState) :
    List (String × String) × Nat × MigState :=
  if schemas.isEmpty then ([], 0, st)
  else
    match upgradeAllLoop migrate revision schemas [] st with
    | (summary, st') =>
        let failed := summary.filter (fun p => p.2 ≠ "Success")
        (summary, if failed.isEmpty then 0 else 1, st')

/-! ## Public-path matching (`src/utils/auth.py`) -/

/-- Python `s.startswith(pre)`. -/
def pyStartswith (s pre : String) : Bool := pre.data.isPrefixOf s.data

/-- Python `s.endswith(post)`. -/
def pyEndswith (s post : String) : Bool := post.data.isSuffixOf s.data

/-- `DEFAULT_PUBLIC_PATHS` (src/utils/auth.py:10). -/
def DEFAULT_PUBLIC_PATHS : List String :=
  ["/", "/login", "/signup", "/api/token", "/static/", "/health",
   "/openapi.json", "/docs", "/redoc", "/set-language"]

/-- The body of the `for p in get_public_paths():` loop of `is_public_path`
(src/utils/auth.py:33): does entry `p` make `path` public? -/
def publicEntryMatch (p path : String) : Bool :=
  if p == "/" then path == "/"
  else if pyEndswith p "/" then pyStartswith path p
  else path == p || pyStartswith path (p ++ "/")

/-- `is_public_path`: the loop returns `True` as soon as one entry matches,
`False` after exhausting the list. -/
def is_public_path (public_paths : List String) (path : String) : Bool :=
  public_paths.any (fun p => publicEntryMatch p path)

/-- The claim's characterisation of a public path: it equals an entry,
extends an entry ending in `"/"` as a prefix, or extends a non-slash entry
followed by `"/"` — the root entry `"/"` matching only `"/"` itself. -/
def matchesAtSegmentBoundary (p path : String) : Prop :=
  path = p
  ∨ (p ≠ "/" ∧ pyEndswith p "/" = true ∧ pyStartswith path p = true)
  ∨ (p ≠ "/" ∧ pyEndswith p "/" = false ∧ pyStartswith path (p ++ "/") = true)

/-! ## Password hashing and verification (`src/database.py`,
`_hash_password` / `_verify_password`)

Bytes are `Nat` values below 256.  The key-derivation primitive
`hashlib.pbkdf2_hmac("sha256", password.encode("utf-8"), salt, iterations)`
is an external library call (the spec lists password-hashing primitives as
external collaborators), so it is a parameter
`kdf : String → List Nat → Nat → List Nat`; everything the source itself
does — salt generation aside, which becomes an explicit argument — is
modelled concretely: base64, the `$`-separated format, `str.split` with
maxsplit, `int()` parsing. -/

/-- The standard base64 alphabet. -/
def b64chars : List Char :=
  "ABCDEFGHIJKLMNOPQRSTUVWXYZabcdefghijklmnopqrstuvwxyz0123456789+/".data

/-- Indexing with a fallback (total version of `b64chars[i]`). -/
def nthCharD : List Char → Nat → Char
  | [], _ => 'A'
  | c :: _, 0 => c
  | _ :: cs, n + 1 => nthCharD cs n

/-- The alphabet character for a six-bit value. -/
def b64chr (i : Nat) : Char := nthCharD b64chars i

/-- `base64.b64encode` on a byte list, producing the padded character
stream: groups of three bytes become four alphabet characters, a final
group of one or two bytes is padded with `'='`. -/
def b64encodeBytes : List Nat → List Char
  | [] => []
  | [a] => [b64chr (a / 4), b64chr (a % 4 * 16), '=', '=']
  | [a, b] =>
      [b64chr (a / 4), b64chr (a % 4 * 16 + b / 16), b64chr (b % 16 * 4), '=']
  | a :: b :: c :: rest =>
      b64chr (a / 4) :: b64chr (a % 4 * 16 + b / 16) ::
      b64chr (b % 16 * 4 + c / 64) :: b64chr (c % 64) :: b64encodeBytes rest

/-- Is `c` in the base64 alphabet? -/
def isB64Char (c : Char) : Bool := b64chars.any (fun x => x == c)

/-- Position of `c` in the base64 alphabet. -/
def b64charDecode (c : Char) : Option Nat := b64chars.findIdx? (fun x => x == c)

/-- Decode a filtered base64 character stream in groups of four; `'='`
padding may only close the final group; a trailing group shorter than four
characters is the `Incorrect padding` error (`none`). -/
def b64decodeChars : List Char → Option (List Nat)
  | [] => some []
  | w :: x :: y :: z :: rest =>
      match b64charDecode w, b64charDecode x with
      | some dw, some dx =>
          if y = '=' then
            if z = '=' ∧ rest = [] then some [dw * 4 + dx / 16] else none
          else
            match b64charDecode y with
            | some dy =>
                if z = '=' then
                  if rest = [] then
                    some [dw * 4 + dx / 16, dx % 16 * 16 + dy / 4]
                  else none
                else
                  match b64charDecode z with
                  | some dz =>
                      (b64decodeChars rest).map
                        (fun t => (dw * 4 + dx / 16) ::
                          (dx % 16 * 16 + dy / 4) :: (dy % 4 * 64 + dz) :: t)
                  | none => none
            | none => none
      | _, _ => none
  | _ => none

/-- `base64.b64decode` (default non-validating mode): characters outside the
alphabet and `'='` are discarded, then the stream is decoded in groups of
four. -/
def b64decode (s : String) : Option (List Nat) :=
  b64decodeChars (s.data.filter (fun c => isB64Char c || c == '='))

/-- Python `str.split(sep, maxsplit)` on character lists: split at the first
`maxsplit` occurrences of `sep`, the remainder staying whole. -/
def pySplit (sep : Char) : Nat → List Char → List (List Char)
  | _, [] => [[]]
  | 0, cs => [cs]
  | n + 1, c :: rest =>
      if c = sep then [] :: pySplit sep n rest
      else
        match pySplit sep (n + 1) rest with
        | [] => [[c]]
        | part :: parts => (c :: part) :: parts

/-- Decimal digit value of a character. -/
def digitVal (c : Char) : Option Nat :=
  if '0' ≤ c ∧ c ≤ '9' then some (c.toNat - '0'.toNat) else none

/-- Digit-run parser for `int()`: digits with single underscores allowed
only between digits. -/
def parseDigitsAux : Option Nat → Bool → List Char → Option Nat
  | acc, lastDigit, [] => if lastDigit then acc else none
  | acc, lastDigit, c :: rest =>
      if c = '_' then
        if lastDigit then parseDigitsAux acc false rest else none
      else
        match digitVal c with
        | some d => parseDigitsAux (some (10 * acc.getD 0 + d)) true rest
        | none => none

/-- Python `int(s)`: optional surrounding whitespace, optional sign, then a
digit run. -/
def pyInt (s : String) : Option Int :=
  let cs :=
    ((s.data.dropWhile Char.isWhitespace).reverse.dropWhile
      Char.isWhitespace).reverse
  match cs with
  | '+' :: rest => (parseDigitsAux none false rest).map (fun n => (n : Int))
  | '-' :: rest => (parseDigitsAux none false rest).map (fun n => -(n : Int))
  | rest => (parseDigitsAux none false rest).map (fun n => (n : Int))

/-- `_hash_password` (src/database.py:109): PBKDF2 with 100000 iterations
over a salt (`os.urandom(16)` in the source; here the drawn salt is the
explicit `salt` argument), formatted as
`pbkdf2_sha256$<iterations>$<salt_b64>$<hash_b64>`. -/
def _hash_password (kdf : String → List Nat → Nat → List Nat)
    (password : String) (salt : List Nat) : String :=
  let iterations := 100000
  let dk := kdf password salt iterations
  String.mk ("pbkdf2_sha256".data ++ '$' :: (Nat.repr iterations).data ++
    '$' :: b64encodeBytes salt ++ '$' :: b64encodeBytes dk)

/-- `_verify_password` (src/database.py:120): split the stored value on the
first three `'$'`, parse the iteration count, base64-decode salt and
expected key, recompute and compare; every parse failure (wrong field
count, non-integer iterations, invalid base64, non-positive iteration count
making `pbkdf2_hmac` raise) is caught by the `except` and yields `False`. -/
def _verify_password (kdf : String → List Nat → Nat → List Nat)
    (password stored : String) : Bool :=
  match pySplit '$' 3 stored.data with
  | [_, iterCs, saltCs, hashCs] =>
      match pyInt (String.mk iterCs) with
      | some iterations =>
          if iterations < 1 then false
          else
            match b64decode (String.mk saltCs),
                  b64decode (String.mk hashCs) with
            | some salt, some expected =>
                kdf password salt iterations.toNat == expected
            | _, _ => false
      | none => false
  | _ => false

/-! ## Shared user creation (`src/database.py`, `create_shared_user`;
`src/models.py`, `User`)

The shared `users` table is a list of records; the two declared unique
constraints (`(tenant_schema, username)` and `(tenant_schema, email)`,
NULL emails exempt as in SQL) are enforced at commit. -/

structure UserRec where
  username : String
  email : Option String
  password_hash : String
  tenant_schema : String
  is_active : Bool
  deriving Repr, DecidableEq

/-- Would inserting `u` violate `uq_shared_users_tenant_username` or
`uq_shared_users_tenant_email` (src/models.py:51-56)? -/
def violatesUserConstraints (db : List UserRec) (u : UserRec) : Bool :=
  db.any (fun v => v.tenant_schema == u.tenant_schema &&
    (v.username == u.username || (u.email.isSome && v.email == u.email)))

/-- `create_shared_user` (src/database.py:133): validate the tenant name,
pre-check username uniqueness within the tenant, pre-check the email
globally when one is given (Python truthiness: `None` and `""` skip the
check), then insert; commit raises `IntegrityError` if a declared unique
constraint is violated. -/
def create_shared_user (kdf : String → List Nat → Nat → List Nat)
    (salt : List Nat) (username password tenant_schema : String)
    (is_active : Bool) (email : Option String) (db : List UserRec) :
    Except String (UserRec × List UserRec) :=
  match validate_schema_name tenant_schema with
  | Except.error e => Except.error e
  | Except.ok () =>
      if db.any (fun v => v.username == username &&
          v.tenant_schema == tenant_schema) then
        Except.error "User already exists for that tenant"
      else
        let emailConflict :=
          match email with
          | some e =>
              if e.isEmpty then false else db.any (fun v => v.email == some e)
          | none => false
        if emailConflict then Except.error "Email already in use"
        else
          let user : UserRec :=
            { username := username, email := email,
              password_hash := _hash_password kdf password salt,
              tenant_schema := tenant_schema, is_active := is_active }
          if violatesUserConstraints db user then Except.error "IntegrityError"
          else Except.ok (user, db ++ [user])

/-- Declared invariant: at most one record per `(tenant_schema, username)`. -/
def uniquePerTenantUsername (db : List UserRec) : Prop :=
  db.Pairwise (fun u v => ¬(u.tenant_schema = v.tenant_schema ∧
    u.username = v.username))

/-- Declared invariant: at most one record per `(tenant_schema, email)`,
records without an email exempt. -/
def uniquePerTenantEmail (db : List UserRec) : Prop :=
  db.Pairwise (fun u v => ¬(u.tenant_schema = v.tenant_schema ∧
    u.email = v.email ∧ u.email ≠ none))

end JK

/-! ## Claim theorems -/

namespace JK

/-- C2: the spec says every identifier containing a character outside
`[A-Za-z0-9_]` is rejected before any DDL is issued.  The code's own
docstring agrees ("Only allow alphanumeric and underscore"), but
`re.match(r"^[A-Za-z0-9_]+$", ...)` lets `$` match before a trailing
newline, so `"club\n"` — which contains `'\n'`, a character outside the
class — passes validation and `CREATE SCHEMA` is issued for it.  Empty and
ordinarily malformed identifiers are rejected as specified. -/
theorem validate_schema_name_trailing_newline_bug :
    ("club\n".data.contains '\n' = true)
    ∧ (isWordChar '\n' = false)
    ∧ (validate_schema_name "club\n" = Except.ok ())
    ∧ (ensure_schema_exists "club\n" [] = Except.ok ["club\n"])
    ∧ (validate_schema_name "" =
        Except.error
          "Invalid schema name. Only letters, numbers and underscore are allowed.")
    ∧ (ensure_schema_exists "club-a" [] =
        Except.error
          "Invalid schema name. Only letters, numbers and underscore are allowed.")
    ∧ (validate_schema_name "club_a" = Except.ok ()) := by
  refine ⟨by decide, by decide, rfl, rfl, rfl, rfl, rfl⟩

/-- C8: schema-ensure is idempotent for every identifier that passes
validation (second call changes nothing and raises no error), and
`ensure_alembic_version_table` creates the per-schema marker table exactly
when it is missing, is the identity when it is present, and is idempotent. -/
theorem ensure_operations_idempotent (s : String) (st : MigState)
    (cat cat₁ : List String)
    (hv : validate_schema_name s = Except.ok ())
    (h1 : ensure_schema_exists s cat = Except.ok cat₁) :
    (ensure_schema_exists s cat₁ = Except.ok cat₁)
    ∧ (s ∈ st.markerTables → ensure_alembic_version_table s st = st)
    ∧ (s ∉ st.markerTables →
        ensure_alembic_version_table s st =
          { st with markerTables := st.markerTables ++ [s] })
    ∧ (ensure_alembic_version_table s (ensure_alembic_version_table s st) =
        ensure_alembic_version_table s st) := by
  have hmem : s ∈ cat₁ := by
    unfold ensure_schema_exists at h1
    rw [hv] at h1
    simp only [Except.ok.injEq] at h1
    subst h1
    by_cases h : s ∈ cat <;> simp [h]
  refine ⟨?_, ?_, ?_, ?_⟩
  · unfold ensure_schema_exists
    rw [hv]
    simp [hmem]
  · intro h
    simp [ensure_alembic_version_table, h]
  · intro h
    simp [ensure_alembic_version_table, h]
  · unfold ensure_alembic_version_table
    by_cases h : s ∈ st.markerTables <;> simp [h]

/-- Witness for C8 at the concrete schema `"qa"`. -/
theorem ensure_operations_idempotent_witness :
    (ensure_schema_exists "qa" ["shared"] = Except.ok ["shared", "qa"])
    ∧ (ensure_schema_exists "qa" ["shared", "qa"] =
        Except.ok ["shared", "qa"]) :=
  ⟨rfl, (ensure_operations_idempotent "qa" ⟨[], []⟩ ["shared"] ["shared", "qa"]
    rfl rfl).1⟩

/-- C1: every session `get_db` yields for a resolved tenant `s` has schema
search order exactly `[s, shared, public]` — the resolved tenant first, then
the shared schema, then the default schema — every session it yields with no
tenant resolved keeps the engine default search order, and every session
`get_tenant_db` yields has search order `[tenant_schema, shared, public]`.
Since the head of the list is the resolved tenant itself, no yielded session
places another tenant's schema first. -/
theorem session_search_path_order :
    (∀ ddlOk req env sp,
        (get_db ddlOk req env).outcome = SessionEnd.yielded sp →
        (∀ s, resolvedTenant req env = some s →
            sp = some [s, SHARED_SCHEMA, "public"])
        ∧ (resolvedTenant req env = none → sp = none))
    ∧ (∀ ddlOk t sp,
        (get_tenant_db ddlOk t).outcome = SessionEnd.yielded sp →
        sp = some [t, SHARED_SCHEMA, "public"]) := by
  constructor
  · intro ddlOk req env sp h
    unfold get_db at h
    unfold resolvedTenant
    cases htv : tenantVar req env with
    | none =>
        rw [htv] at h
        simp only [SessionEnd.yielded.injEq] at h
        exact ⟨by intro s hs; simp at hs, by intro _; exact h.symm⟩
    | some s =>
        rw [htv] at h
        by_cases he : s.isEmpty
        · simp only [he, if_true] at h
          simp only [SessionEnd.yielded.injEq] at h
          refine ⟨?_, ?_⟩
          · intro s' hs'
            simp only [he, if_true] at hs'
            exact absurd hs' (by simp)
          · intro _; exact h.symm
        · simp only [he, if_false, Bool.false_eq_true] at h
          cases hv : validate_schema_name s with
          | error e => rw [hv] at h; exact absurd h (by simp)
          | ok u =>
              cases u
              rw [hv] at h
              by_cases hd : ddlOk s
              · simp only [hd, if_true] at h
                simp only [SessionEnd.yielded.injEq] at h
                refine ⟨?_, ?_⟩
                · intro s' hs'
                  simp only [he, if_false, Bool.false_eq_true,
                    Option.some.injEq] at hs'
                  subst hs'
                  exact h.symm
                · intro hn
                  simp [he] at hn
              · simp [hd] at h
  · intro ddlOk t sp h
    unfold get_tenant_db at h
    cases hv : validate_schema_name t with
    | error e => rw [hv] at h; exact absurd h (by simp)
    | ok u =>
        cases u
        rw [hv] at h
        by_cases hd : ddlOk t
        · simp only [hd, if_true, SessionEnd.yielded.injEq] at h
          exact h.symm
        · simp [hd] at h

/-- Witness for C1: a request whose JWT set `request.state.tenant = "clubA"`
yields a session whose search order is `["clubA", "shared", "public"]`. -/
theorem session_search_path_order_witness :
    (get_db (fun _ => true) (some ⟨some "clubA", none, none⟩) none).outcome
      = SessionEnd.yielded (some ["clubA", SHARED_SCHEMA, "public"])
    ∧ (some ["clubA", SHARED_SCHEMA, "public"] : Option (List String))
      = some ["clubA", SHARED_SCHEMA, "public"] :=
  ⟨rfl,
   (session_search_path_order.1 (fun _ => true)
      (some ⟨some "clubA", none, none⟩) none _ rfl).1 "clubA" rfl⟩

/-- C7: tenant resolution follows exactly the precedence
token claim (`request.state.tenant`) > `X-Tenant` header > `tenant` query
parameter > `DEFAULT_TENANT_SCHEMA` environment default > none (anonymous),
where a hint is "present" when it is a non-empty string (Python truthiness,
which the code tests at every step). -/
theorem tenant_resolution_precedence :
    (∀ (r : RequestCtx) (env : Option String),
        resolvedTenant (some r) env =
          (if truthy r.stateTenant then r.stateTenant
           else if truthy r.headerTenant then r.headerTenant
           else if truthy r.queryTenant then r.queryTenant
           else if truthy env then env
           else none))
    ∧ (∀ env : Option String,
        resolvedTenant none env = (if truthy env then env else none)) := by
  have hres : ∀ req env, resolvedTenant req env =
      (if truthy (tenantVar req env) then tenantVar req env else none) := by
    intro req env
    unfold resolvedTenant
    cases h : tenantVar req env with
    | none => rfl
    | some s => by_cases he : s.isEmpty <;> simp [truthy, he]
  have hnone : truthy (none : Option String) = false := rfl
  constructor
  · intro r env
    rw [hres]
    unfold tenantVar pyOr
    by_cases h1 : truthy r.stateTenant
    · simp [h1]
    · by_cases h2 : truthy r.headerTenant
      · simp [h1, h2, hnone]
      · by_cases h3 : truthy r.queryTenant
        · simp [h1, h2, h3, hnone]
        · by_cases h4 : truthy env <;> simp [h1, h2, h3, h4, hnone]
  · intro env
    rw [hres]
    unfold tenantVar
    by_cases h4 : truthy env <;> simp [h4, hnone]

/-- C9: every session `get_db` opens is closed on every exit path (yield,
HTTP 400, DDL failure), `get_tenant_db` closes every session it opens, and
when schema provisioning fails at the database layer the failure propagates
(`SessionEnd.ddlFailed`) and the session is never yielded. -/
theorem session_release_on_every_path :
    (∀ ddlOk req env, (get_db ddlOk req env).opened = true
        ∧ (get_db ddlOk req env).closed = true)
    ∧ (∀ ddlOk t, (get_tenant_db ddlOk t).opened = true →
        (get_tenant_db ddlOk t).closed = true)
    ∧ (∀ ddlOk req env s, resolvedTenant req env = some s →
        validate_schema_name s = Except.ok () → ddlOk s = false →
        (get_db ddlOk req env).outcome = SessionEnd.ddlFailed)
    ∧ (∀ ddlOk t, validate_schema_name t = Except.ok () → ddlOk t = false →
        (get_tenant_db ddlOk t).outcome = SessionEnd.ddlFailed)
    ∧ (∀ sp, SessionEnd.ddlFailed ≠ SessionEnd.yielded sp) := by
  refine ⟨?_, ?_, ?_, ?_, ?_⟩
  · intro ddlOk req env
    unfold get_db
    cases tenantVar req env with
    | none => exact ⟨rfl, rfl⟩
    | some s =>
        by_cases he : s.isEmpty
        · simp [he]
        · simp only [he, if_false, Bool.false_eq_true]
          cases validate_schema_name s with
          | error e => exact ⟨rfl, rfl⟩
          | ok u => cases u; by_cases hd : ddlOk s <;> simp [hd]
  · intro ddlOk t
    unfold get_tenant_db
    cases validate_schema_name t with
    | error e => intro h; exact h
    | ok u => cases u; by_cases hd : ddlOk t <;> simp [hd]
  · intro ddlOk req env s hs hval hd
    unfold resolvedTenant at hs
    unfold get_db
    cases htv : tenantVar req env with
    | none => rw [htv] at hs; simp at hs
    | some v =>
        rw [htv] at hs
        by_cases he : v.isEmpty
        · simp [he] at hs
        · simp only [he, if_false, Bool.false_eq_true,
            Option.some.injEq] at hs
          subst hs
          simp only [he, if_false, Bool.false_eq_true]
          rw [hval]
          simp [hd]
  · intro ddlOk t hv hd
    unfold get_tenant_db
    rw [hv]
    simp [hd]
  · intro sp h
    exact SessionEnd.noConfusion h

/-! Association-list lemmas for the summary dict and version rows. -/

theorem mem_upsert_elim {p : String × String} {k v : String}
    {l : List (String × String)} (h : p ∈ upsert k v l) :
    p = (k, v) ∨ p ∈ l := by
  induction l with
  | nil => simpa [upsert] using h
  | cons a rest ih =>
      obtain ⟨k', v'⟩ := a
      by_cases hk : k' = k
      · simp only [upsert, hk, if_true] at h
        rcases List.mem_cons.mp h with h1 | h1
        · exact Or.inl h1
        · exact Or.inr (List.mem_cons_of_mem _ h1)
      · simp only [upsert, hk, if_false] at h
        rcases List.mem_cons.mp h with h1 | h1
        · exact Or.inr (h1 ▸ List.mem_cons_self _ _)
        · rcases ih h1 with h2 | h2
          · exact Or.inl h2
          · exact Or.inr (List.mem_cons_of_mem _ h2)

theorem mem_upsert_self (k v : String) (l : List (String × String)) :
    (k, v) ∈ upsert k v l := by
  induction l with
  | nil => simp [upsert]
  | cons a rest ih =>
      obtain ⟨k', v'⟩ := a
      by_cases hk : k' = k <;> simp [upsert, hk, ih]

theorem mem_upsert_of_ne {s w k v : String} {l : List (String × String)}
    (hne : k ≠ s) (h : (s, w) ∈ l) : (s, w) ∈ upsert k v l := by
  induction l with
  | nil => simp at h
  | cons a rest ih =>
      obtain ⟨k', v'⟩ := a
      rcases List.mem_cons.mp h with h1 | h1
      · have hk : k' ≠ k := by
          intro hkk
          apply hne
          have := congrArg Prod.fst h1
          simp at this
          exact (this.trans hkk).symm
        simp only [upsert, hk, if_false]
        exact h1 ▸ List.mem_cons_self _ _
      · by_cases hk : k' = k
        · simp only [upsert, hk, if_true]
          exact List.mem_cons_of_mem _ h1
        · simp only [upsert, hk, if_false]
          exact List.mem_cons_of_mem _ (ih h1)

theorem exists_key_upsert {t : String} (k v : String)
    {l : List (String × String)}
    (h : (∃ w, (t, w) ∈ l) ∨ t = k) : ∃ w, (t, w) ∈ upsert k v l := by
  by_cases hk : k = t
  · exact ⟨v, hk ▸ mem_upsert_self k v l⟩
  · rcases h with ⟨w, hw⟩ | h1
    · exact ⟨w, mem_upsert_of_ne hk hw⟩
    · exact absurd h1.symm hk

theorem ensure_alembic_versions (a : String) (st : MigState) :
    (ensure_alembic_version_table a st).versions = st.versions := by
  unfold ensure_alembic_version_table
  split <;> rfl

/-- One step of the `--all` loop, with the dict value rewritten through
`statusString`. -/
theorem upgradeAllLoop_cons (migrate : String → String → Except String String)
    (rev a : String) (rest : List String) (summary : List (String × String))
    (st : MigState) :
    upgradeAllLoop migrate rev (a :: rest) summary st =
      upgradeAllLoop migrate rev rest
        (upsert a (statusString (migrate a rev)) summary)
        (upgrade_schema migrate a rev st).2 := by
  cases hm : migrate a rev <;>
    simp [upgradeAllLoop, upgrade_schema, hm, statusString]

theorem loop_summary_mem (migrate : String → String → Except String String)
    (rev : String) :
    ∀ (l : List String) (summary : List (String × String)) (st : MigState)
      (p : String × String),
      p ∈ (upgradeAllLoop migrate rev l summary st).1 →
      p ∈ summary ∨ ∃ t ∈ l, p = (t, statusString (migrate t rev)) := by
  intro l
  induction l with
  | nil => intro summary st p h; exact Or.inl h
  | cons a rest ih =>
      intro summary st p h
      rw [upgradeAllLoop_cons] at h
      rcases ih _ _ p h with h1 | ⟨t, ht, hp⟩
      · rcases mem_upsert_elim h1 with h2 | h2
        · exact Or.inr ⟨a, List.mem_cons_self _ _, h2⟩
        · exact Or.inl h2
      · exact Or.inr ⟨t, List.mem_cons_of_mem _ ht, hp⟩

theorem loop_key_covered (migrate : String → String → Except String String)
    (rev : String) :
    ∀ (l : List String) (summary : List (String × String)) (st : MigState)
      (t : String),
      (t ∈ l ∨ ∃ w, (t, w) ∈ summary) →
      ∃ w, (t, w) ∈ (upgradeAllLoop migrate rev l summary st).1 := by
  intro l
  induction l with
  | nil =>
      intro summary st t h
      rcases h with h | h
      · simp at h
      · exact h
  | cons a rest ih =>
      intro summary st t h
      rw [upgradeAllLoop_cons]
      apply ih
      rcases h with h | h
      · rcases List.mem_cons.mp h with h1 | h1
        · exact Or.inr (exists_key_upsert _ _ (Or.inr h1))
        · exact Or.inl h1
      · exact Or.inr (exists_key_upsert _ _ (Or.inl h))

theorem loop_versions_stable
    (migrate : String → String → Except String String) (rev : String) :
    ∀ (l : List String) (summary : List (String × String)) (st : MigState)
      (s v : String),
      migrate s rev = Except.ok v → (s, v) ∈ st.versions →
      (s, v) ∈ (upgradeAllLoop migrate rev l summary st).2.versions := by
  intro l
  induction l with
  | nil => intro summary st s v _ h; exact h
  | cons a rest ih =>
      intro summary st s v hs h
      rw [upgradeAllLoop_cons]
      apply ih _ _ s v hs
      cases hm : migrate a rev with
      | ok w =>
          simp only [upgrade_schema, hm]
          by_cases ha : a = s
          · subst ha
            rw [hm] at hs
            simp only [Except.ok.injEq] at hs
            subst hs
            exact mem_upsert_self _ _ _
          · exact mem_upsert_of_ne ha (by rw [ensure_alembic_versions]; exact h)
      | error e =>
          simp only [upgrade_schema, hm, ensure_alembic_versions]
          exact h

theorem loop_versions_set
    (migrate : String → String → Except String String) (rev : String) :
    ∀ (l : List String) (summary : List (String × String)) (st : MigState)
      (s v : String),
      s ∈ l → migrate s rev = Except.ok v →
      (s, v) ∈ (upgradeAllLoop migrate rev l summary st).2.versions := by
  intro l
  induction l with
  | nil => intro summary st s v h; simp at h
  | cons a rest ih =>
      intro summary st s v hmem hs
      rcases List.mem_cons.mp hmem with h1 | h1
      · subst h1
        rw [upgradeAllLoop_cons]
        apply loop_versions_stable migrate rev rest _ _ s v hs
        simp only [upgrade_schema, hs]
        exact mem_upsert_self _ _ _
      · rw [upgradeAllLoop_cons]
        exact ih _ _ s v h1 hs

theorem filter_ne_success_nil {l : List (String × String)}
    (hno : ∀ p ∈ l, p.2 = "Success") :
    l.filter (fun p => decide (p.2 ≠ "Success")) = [] := by
  induction l with
  | nil => rfl
  | cons q qs ihq =>
      have hq : q.2 = "Success" := hno q (List.mem_cons_self _ _)
      simp only [List.filter_cons, hq]
      simp only [ne_eq, not_true_eq_false, decide_False, Bool.false_eq_true,
        if_false]
      exact ihq (fun p hp => hno p (List.mem_cons_of_mem _ hp))

theorem failed_prefix_ne_success (e : String) :
    ("Failed: " ++ e) ≠ "Success" := by
  intro h
  have hlen := congrArg String.length h
  rw [String.length_append] at hlen
  have h1 : ("Failed: ").length = 8 := rfl
  have h2 : ("Success").length = 7 := rfl
  rw [h1, h2] at hlen
  omega

/-- C3: under `--all`, every schema in the list gets its own summary entry
holding exactly the outcome of its own migration (so one schema's failure
does not prevent the others from being attempted), a schema whose migration
succeeds has its `alembic_version` marker updated to the returned revision
even when other schemas fail, and the process exits with code 1 exactly when
at least one schema's migration failed. -/
theorem upgrade_all_independent
    (migrate : String → String → Except String String)
    (revision : String) (schemas : List String) (st : MigState) (s : String)
    (hmem : s ∈ schemas) :
    (∃ w, (s, w) ∈ (cmd_upgrade_all migrate revision schemas st).1
        ∧ w = statusString (migrate s revision))
    ∧ (∀ v, migrate s revision = Except.ok v →
        (s, v) ∈ (cmd_upgrade_all migrate revision schemas st).2.2.versions)
    ∧ ((cmd_upgrade_all migrate revision schemas st).2.1 = 1 ↔
        ∃ t ∈ schemas, ∃ e, migrate t revision = Except.error e) := by
  have hne : schemas.isEmpty = false := by
    cases schemas with
    | nil => simp at hmem
    | cons a rest => rfl
  unfold cmd_upgrade_all
  rw [hne]
  simp only [Bool.false_eq_true, if_false]
  rcases hloop : upgradeAllLoop migrate revision schemas [] st with ⟨summary, st'⟩
  dsimp only
  refine ⟨?_, ?_, ?_⟩
  · obtain ⟨w, hw⟩ := loop_key_covered migrate revision schemas [] st s
      (Or.inl hmem)
    rw [hloop] at hw
    refine ⟨w, hw, ?_⟩
    have := loop_summary_mem migrate revision schemas [] st (s, w)
      (by rw [hloop]; exact hw)
    rcases this with h1 | ⟨t, _, hp⟩
    · simp at h1
    · have hts : t = s := (congrArg Prod.fst hp).symm
      have := congrArg Prod.snd hp
      simpa [hts] using this
  · intro v hv
    have := loop_versions_set migrate revision schemas [] st s v hmem hv
    rw [hloop] at this
    exact this
  · constructor
    · intro hexit
      have hex : ∃ p ∈ summary, p.2 ≠ "Success" := by
        by_contra hno
        push_neg at hno
        rw [filter_ne_success_nil hno] at hexit
        simp at hexit
      obtain ⟨p, hpmem, hfail⟩ := hex
      have := loop_summary_mem migrate revision schemas [] st p
        (by rw [hloop]; exact hpmem)
      rcases this with h1 | ⟨t, ht, hp2⟩
      · simp at h1
      · refine ⟨t, ht, ?_⟩
        cases hm : migrate t revision with
        | ok w =>
            exfalso
            apply hfail
            have := congrArg Prod.snd hp2
            simp only at this
            rw [this, hm]
            rfl
        | error e => exact ⟨e, rfl⟩
    · rintro ⟨t, ht, e, he⟩
      obtain ⟨w, hw⟩ := loop_key_covered migrate revision schemas [] st t
        (Or.inl ht)
      rw [hloop] at hw
      have hws : w = "Failed: " ++ e := by
        have := loop_summary_mem migrate revision schemas [] st (t, w)
          (by rw [hloop]; exact hw)
        rcases this with h1 | ⟨t', _, hp⟩
        · simp at h1
        · have htt : t' = t := (congrArg Prod.fst hp).symm
          have := congrArg Prod.snd hp
          simp only at this
          rw [this, htt, he]
          rfl
      have hfilter : (t, w) ∈ summary.filter (fun p => decide (p.2 ≠ "Success")) := by
        apply List.mem_filter.mpr
        refine ⟨hw, ?_⟩
        simp only [decide_eq_true_eq]
        rw [hws]
        exact failed_prefix_ne_success e
      have hie : (summary.filter (fun p => decide (p.2 ≠ "Success"))).isEmpty
          = false := by
        cases hfe : summary.filter (fun p => decide (p.2 ≠ "Success")) with
        | nil => rw [hfe] at hfilter; simp at hfilter
        | cons q qs => rfl
      rw [hie]
      rfl

/-- Witness for C3: schemas `["a", "b"]` where `a`'s migration fails and
`b`'s succeeds — `b`'s marker is still updated and the exit code is 1. -/
theorem upgrade_all_independent_witness :
    ("b" ∈ ["a", "b"])
    ∧ ((cmd_upgrade_all
          (fun s _ => if s = "a" then Except.error "boom"
                      else Except.ok "daf594c78b31")
          "head" ["a", "b"] ⟨[], []⟩).2.1 = 1 ↔
        ∃ t ∈ ["a", "b"], ∃ e,
          (fun s _ => if s = "a" then Except.error "boom"
                      else Except.ok "daf594c78b31") t "head"
            = Except.error (e : String)) :=
  ⟨by simp,
   (upgrade_all_independent
      (fun s _ => if s = "a" then Except.error "boom"
                  else Except.ok "daf594c78b31")
      "head" ["a", "b"] ⟨[], []⟩ "b" (by simp)).2.2⟩

/-- Witness for C9: with a database layer that rejects all DDL, a request
resolving tenant `"clubA"` ends in `ddlFailed` (never yielded), and the
session opened by `get_tenant_db "clubA"` is closed. -/
theorem session_release_on_every_path_witness :
    (get_db (fun _ => false) (some ⟨some "clubA", none, none⟩) none).outcome
      = SessionEnd.ddlFailed
    ∧ (get_tenant_db (fun _ => false) "clubA").outcome = SessionEnd.ddlFailed
    ∧ (get_tenant_db (fun _ => true) "clubA").closed = true :=
  ⟨session_release_on_every_path.2.2.1 (fun _ => false)
      (some ⟨some "clubA", none, none⟩) none "clubA" rfl rfl rfl,
   session_release_on_every_path.2.2.2.1 (fun _ => false) "clubA" rfl rfl,
   session_release_on_every_path.2.1 (fun _ => true) "clubA" rfl⟩

/-! Character-list facts for the public-path matcher. -/

theorem isPrefixOf_refl_chars (l : List Char) : l.isPrefixOf l = true := by
  induction l with
  | nil => rfl
  | cons a as ih =>
      show (a == a && as.isPrefixOf as) = true
      simp [ih]

theorem pyStartswith_self (s : String) : pyStartswith s s = true :=
  isPrefixOf_refl_chars s.data

/-- One loop iteration of `is_public_path` agrees with the claim's
segment-boundary characterisation, entry by entry. -/
theorem publicEntryMatch_iff (p path : String) :
    publicEntryMatch p path = true ↔ matchesAtSegmentBoundary p path := by
  unfold publicEntryMatch matchesAtSegmentBoundary
  by_cases hroot : p = "/"
  · subst hroot
    simp [beq_iff_eq]
  · have hbeq : (p == "/") = false := by
      simp [beq_eq_false_iff_ne, hroot]
    rw [hbeq]
    simp only [Bool.false_eq_true, if_false]
    cases hend : pyEndswith p "/" with
    | true =>
        simp only [if_true]
        constructor
        · intro h
          exact Or.inr (Or.inl ⟨hroot, by simp, h⟩)
        · rintro (h | ⟨_, _, h⟩ | ⟨_, he, _⟩)
          · subst h; exact pyStartswith_self _
          · exact h
          · exact absurd he (by simp)
    | false =>
        simp only [Bool.false_eq_true, if_false]
        simp only [Bool.or_eq_true, beq_iff_eq]
        constructor
        · rintro (h | h)
          · exact Or.inl h
          · exact Or.inr (Or.inr ⟨hroot, by simp, h⟩)
        · rintro (h | ⟨_, he, _⟩ | ⟨_, _, h⟩)
          · exact Or.inl h
          · exact absurd he (by simp)
          · exact Or.inr h

/-! Base64 facts used for the credential-format round trip. -/

theorem nthCharD_mem_or (l : List Char) (i : Nat) :
    nthCharD l i ∈ l ∨ nthCharD l i = 'A' := by
  induction l generalizing i with
  | nil => exact Or.inr rfl
  | cons c cs ih =>
      cases i with
      | zero => exact Or.inl (List.mem_cons_self _ _)
      | succ n =>
          rcases ih n with h | h
          · exact Or.inl (List.mem_cons_of_mem _ h)
          · exact Or.inr h

theorem b64chr_mem (i : Nat) : b64chr i ∈ b64chars := by
  rcases nthCharD_mem_or b64chars i with h | h
  · exact h
  · rw [b64chr, h]; decide

theorem b64chars_no_pad : ∀ c ∈ b64chars, c ≠ '=' := by decide

theorem b64chars_no_dollar : ∀ c ∈ b64chars, c ≠ '$' := by decide

theorem b64chr_ne_pad (i : Nat) : b64chr i ≠ '=' :=
  b64chars_no_pad _ (b64chr_mem i)

theorem b64chr_ne_dollar (i : Nat) : b64chr i ≠ '$' :=
  b64chars_no_dollar _ (b64chr_mem i)

theorem isB64Char_chr (i : Nat) : isB64Char (b64chr i) = true := by
  rw [isB64Char, List.any_eq_true]
  exact ⟨b64chr i, b64chr_mem i, by simp⟩

theorem b64charDecode_chr : ∀ i, i < 64 → b64charDecode (b64chr i) = some i := by
  decide

theorem b64encode_mem :
    ∀ bs, ∀ c ∈ b64encodeBytes bs, (∃ i, c = b64chr i) ∨ c = '=' := by
  intro bs
  induction bs using b64encodeBytes.induct with
  | case1 => intro c h; simp [b64encodeBytes] at h
  | case2 a =>
      intro c h
      simp only [b64encodeBytes, List.mem_cons, List.not_mem_nil,
        or_false] at h
      rcases h with h | h | h | h
      · exact Or.inl ⟨_, h⟩
      · exact Or.inl ⟨_, h⟩
      · exact Or.inr h
      · exact Or.inr h
  | case3 a b =>
      intro c h
      simp only [b64encodeBytes, List.mem_cons, List.not_mem_nil,
        or_false] at h
      rcases h with h | h | h | h
      · exact Or.inl ⟨_, h⟩
      · exact Or.inl ⟨_, h⟩
      · exact Or.inl ⟨_, h⟩
      · exact Or.inr h
  | case4 a b c' rest ih =>
      intro c h
      simp only [b64encodeBytes, List.mem_cons] at h
      rcases h with h | h | h | h | h
      · exact Or.inl ⟨_, h⟩
      · exact Or.inl ⟨_, h⟩
      · exact Or.inl ⟨_, h⟩
      · exact Or.inl ⟨_, h⟩
      · exact ih c h

theorem filter_id_of_all {p : Char → Bool} :
    ∀ l : List Char, (∀ c ∈ l, p c = true) → l.filter p = l := by
  intro l h
  induction l with
  | nil => rfl
  | cons c cs ih =>
      rw [List.filter_cons, h c (List.mem_cons_self _ _)]
      simp only [if_true]
      rw [ih (fun x hx => h x (List.mem_cons_of_mem _ hx))]

theorem b64encode_filter (bs : List Nat) :
    (b64encodeBytes bs).filter (fun c => isB64Char c || c == '=') =
      b64encodeBytes bs := by
  apply filter_id_of_all
  intro c hc
  rcases b64encode_mem bs c hc with ⟨i, rfl⟩ | rfl
  · simp [isB64Char_chr]
  · simp

theorem b64decodeChars_encode :
    ∀ bs, (∀ b ∈ bs, b < 256) →
      b64decodeChars (b64encodeBytes bs) = some bs := by
  intro bs
  induction bs using b64encodeBytes.induct with
  | case1 => intro _; rfl
  | case2 a =>
      intro h
      have ha : a < 256 := h a (by simp)
      show b64decodeChars [b64chr (a / 4), b64chr (a % 4 * 16), '=', '='] =
        some [a]
      simp only [b64decodeChars]
      rw [b64charDecode_chr _ (by omega), b64charDecode_chr _ (by omega)]
      simp
      omega
  | case3 a b =>
      intro h
      have ha : a < 256 := h a (by simp)
      have hb : b < 256 := h b (by simp)
      show b64decodeChars [b64chr (a / 4), b64chr (a % 4 * 16 + b / 16),
        b64chr (b % 16 * 4), '='] = some [a, b]
      simp only [b64decodeChars]
      rw [b64charDecode_chr (a / 4) (by omega),
        b64charDecode_chr (a % 4 * 16 + b / 16) (by omega),
        b64charDecode_chr (b % 16 * 4) (by omega)]
      simp [b64chr_ne_pad]
      omega
  | case4 a b c rest ih =>
      intro h
      have ha : a < 256 := h a (by simp)
      have hb : b < 256 := h b (by simp)
      have hc : c < 256 := h c (by simp)
      have hrest : ∀ x ∈ rest, x < 256 :=
        fun x hx => h x (by simp [hx])
      show b64decodeChars (b64chr (a / 4) :: b64chr (a % 4 * 16 + b / 16) ::
        b64chr (b % 16 * 4 + c / 64) :: b64chr (c % 64) ::
        b64encodeBytes rest) = some (a :: b :: c :: rest)
      simp only [b64decodeChars]
      rw [b64charDecode_chr (a / 4) (by omega),
        b64charDecode_chr (a % 4 * 16 + b / 16) (by omega),
        b64charDecode_chr (b % 16 * 4 + c / 64) (by omega),
        b64charDecode_chr (c % 64) (by omega),
        ih hrest]
      simp [b64chr_ne_pad]
      omega

theorem b64decode_encode (bs : List Nat) (h : ∀ b ∈ bs, b < 256) :
    b64decode (String.mk (b64encodeBytes bs)) = some bs := by
  show b64decodeChars ((b64encodeBytes bs).filter
    (fun c => isB64Char c || c == '=')) = some bs
  rw [b64encode_filter]
  exact b64decodeChars_encode bs h

/-! Splitting and parsing facts for the credential format. -/

theorem pySplit_zero (sep : Char) (cs : List Char) :
    pySplit sep 0 cs = [cs] := by
  cases cs <;> rfl

theorem pySplit_append (sep : Char) (n m : Nat) (hm : n = m + 1) :
    ∀ (xs ys : List Char), (∀ c ∈ xs, c ≠ sep) →
      pySplit sep n (xs ++ sep :: ys) = xs :: pySplit sep m ys := by
  subst hm
  intro xs
  induction xs with
  | nil =>
      intro ys _
      show pySplit sep (m + 1) (sep :: ys) = [] :: pySplit sep m ys
      simp [pySplit]
  | cons x xs ih =>
      intro ys h
      have hx : x ≠ sep := h x (List.mem_cons_self _ _)
      show pySplit sep (m + 1) (x :: (xs ++ sep :: ys)) =
        (x :: xs) :: pySplit sep m ys
      simp only [pySplit, hx, if_false]
      rw [ih ys (fun c hc => h c (List.mem_cons_of_mem _ hc))]

theorem b64encode_no_dollar (bs : List Nat) :
    ∀ c ∈ b64encodeBytes bs, c ≠ '$' := by
  intro c hc
  rcases b64encode_mem bs c hc with ⟨i, rfl⟩ | rfl
  · exact b64chr_ne_dollar i
  · decide

/-- Splitting the stored credential string on its first three `'$'`
recovers the four fields. -/
theorem hash_password_split (kdf : String → List Nat → Nat → List Nat)
    (password : String) (salt : List Nat) :
    pySplit '$' 3 (_hash_password kdf password salt).data =
      ["pbkdf2_sha256".data, (Nat.repr 100000).data,
       b64encodeBytes salt, b64encodeBytes (kdf password salt 100000)] := by
  show pySplit '$' 3 ("pbkdf2_sha256".data ++ '$' ::
    ((Nat.repr 100000).data ++ '$' ::
      (b64encodeBytes salt ++ '$' ::
        b64encodeBytes (kdf password salt 100000)))) = _
  rw [pySplit_append '$' 3 2 rfl _ _ (by decide)]
  rw [pySplit_append '$' 2 1 rfl _ _ (by decide)]
  rw [pySplit_append '$' 1 0 rfl _ _ (b64encode_no_dollar salt)]
  rw [pySplit_zero]

theorem pyInt_repr_100000 :
    pyInt (String.mk (Nat.repr 100000).data) = some 100000 := by decide

/-- Verification of any password against a stored hash produced by
`_hash_password` reduces to comparing the recomputed and stored derived
keys. -/
theorem verify_of_hash (kdf : String → List Nat → Nat → List Nat)
    (password pw : String) (salt : List Nat)
    (hsalt : ∀ b ∈ salt, b < 256)
    (hdk : ∀ b ∈ kdf password salt 100000, b < 256) :
    _verify_password kdf pw (_hash_password kdf password salt) =
      (kdf pw salt 100000 == kdf password salt 100000) := by
  unfold _verify_password
  rw [hash_password_split]
  dsimp only
  rw [pyInt_repr_100000]
  dsimp only
  rw [if_neg (by decide : ¬((100000 : Int) < 1))]
  rw [b64decode_encode salt hsalt, b64decode_encode _ hdk]
  rfl

/-- C4: verifying a password against its own stored hash succeeds; verifying
a different password fails whenever the key-derivation function separates
the two passwords on that salt (as a collision-free KDF does); and hashing
the same password with two distinct salts — as drawn freshly by
`os.urandom(16)` per call — yields distinct stored strings. -/
theorem password_hash_verify (kdf : String → List Nat → Nat → List Nat)
    (password other : String) (salt salt2 : List Nat)
    (hsalt : ∀ b ∈ salt, b < 256)
    (hsalt2 : ∀ b ∈ salt2, b < 256)
    (hdk : ∀ b ∈ kdf password salt 100000, b < 256)
    (hsep : kdf other salt 100000 = kdf password salt 100000 →
      other = password) :
    (_verify_password kdf password (_hash_password kdf password salt) = true)
    ∧ (other ≠ password →
        _verify_password kdf other (_hash_password kdf password salt) = false)
    ∧ (salt ≠ salt2 →
        _hash_password kdf password salt ≠ _hash_password kdf password salt2) := by
  refine ⟨?_, ?_, ?_⟩
  · rw [verify_of_hash kdf password password salt hsalt hdk]
    simp
  · intro hne
    rw [verify_of_hash kdf password other salt hsalt hdk]
    rw [beq_eq_false_iff_ne]
    intro heq
    exact hne (hsep heq)
  · intro hne heq
    have hd := congrArg (fun s => pySplit '$' 3 s.data) heq
    simp only [hash_password_split] at hd
    have hsec : b64encodeBytes salt = b64encodeBytes salt2 := by
      have := congrArg (fun l => l.get? 2) hd
      simpa using this
    have h1 := b64decodeChars_encode salt hsalt
    have h2 := b64decodeChars_encode salt2 hsalt2
    rw [hsec, h2] at h1
    simp only [Option.some.injEq] at h1
    exact hne h1.symm

/-- Witness for C4 with a concrete two-valued KDF: `"pw"` verifies against
its own hash, `"q"` does not, and salts `[1, 2]` and `[3]` give different
stored strings. -/
theorem password_hash_verify_witness :
    (("q" : String) ≠ "pw")
    ∧ (_verify_password (fun pw _ _ => [if pw = "pw" then 65 else 66]) "pw"
        (_hash_password (fun pw _ _ => [if pw = "pw" then 65 else 66]) "pw"
          [1, 2]) = true)
    ∧ (_verify_password (fun pw _ _ => [if pw = "pw" then 65 else 66]) "q"
        (_hash_password (fun pw _ _ => [if pw = "pw" then 65 else 66]) "pw"
          [1, 2]) = false)
    ∧ (_hash_password (fun pw _ _ => [if pw = "pw" then 65 else 66]) "pw"
        [1, 2] ≠
       _hash_password (fun pw _ _ => [if pw = "pw" then 65 else 66]) "pw"
        [3]) :=
  ⟨by decide,
   (password_hash_verify (fun pw _ _ => [if pw = "pw" then 65 else 66])
      "pw" "q" [1, 2] [3] (by decide) (by decide) (by decide)
      (fun h => absurd h (by decide))).1,
   (password_hash_verify (fun pw _ _ => [if pw = "pw" then 65 else 66])
      "pw" "q" [1, 2] [3] (by decide) (by decide) (by decide)
      (fun h => absurd h (by decide))).2.1 (by decide),
   (password_hash_verify (fun pw _ _ => [if pw = "pw" then 65 else 66])
      "pw" "q" [1, 2] [3] (by decide) (by decide) (by decide)
      (fun h => absurd h (by decide))).2.2 (by decide)⟩

/-- C5: `_verify_password` is a total Boolean function, and every parse
failure of the stored value yields `false` rather than an exception: wrong
field count (fewer or more than four `'$'`-separated fields), a
non-integer iteration count, an invalid base64 salt or key field, and a
non-positive iteration count (which makes `pbkdf2_hmac` raise, caught by
the `except`). -/
theorem verify_malformed_false (kdf : String → List Nat → Nat → List Nat)
    (password stored : String) :
    ((pySplit '$' 3 stored.data).length ≠ 4 →
        _verify_password kdf password stored = false)
    ∧ (∀ a i s h4, pySplit '$' 3 stored.data = [a, i, s, h4] →
        (pyInt (String.mk i) = none →
            _verify_password kdf password stored = false)
        ∧ (b64decode (String.mk s) = none →
            _verify_password kdf password stored = false)
        ∧ (b64decode (String.mk h4) = none →
            _verify_password kdf password stored = false)
        ∧ (∀ it : Int, pyInt (String.mk i) = some it → it < 1 →
            _verify_password kdf password stored = false)) := by
  constructor
  · intro hlen
    cases hsp : pySplit '$' 3 stored.data with
    | nil => unfold _verify_password; rw [hsp]
    | cons a tl =>
        cases tl with
        | nil => unfold _verify_password; rw [hsp]
        | cons b tl2 =>
            cases tl2 with
            | nil => unfold _verify_password; rw [hsp]
            | cons c tl3 =>
                cases tl3 with
                | nil => unfold _verify_password; rw [hsp]
                | cons d tl4 =>
                    cases tl4 with
                    | nil => rw [hsp] at hlen; simp at hlen
                    | cons e tl5 => unfold _verify_password; rw [hsp]
  · intro a i s h4 hsp
    refine ⟨?_, ?_, ?_, ?_⟩
    · intro hint
      unfold _verify_password
      rw [hsp]
      dsimp only
      rw [hint]
    · intro hdec
      unfold _verify_password
      rw [hsp]
      dsimp only
      cases hpi : pyInt (String.mk i) with
      | none => rfl
      | some it =>
          dsimp only
          by_cases hlt : it < 1
          · simp [hlt]
          · simp only [hlt, if_false]
            rw [hdec]
    · intro hdec
      unfold _verify_password
      rw [hsp]
      dsimp only
      cases hpi : pyInt (String.mk i) with
      | none => rfl
      | some it =>
          dsimp only
          by_cases hlt : it < 1
          · simp [hlt]
          · simp only [hlt, if_false]
            rw [hdec]
            cases b64decode (String.mk s) <;> rfl
    · intro it hpi hlt
      unfold _verify_password
      rw [hsp]
      dsimp only
      rw [hpi]
      dsimp only
      simp [hlt]

/-- Witness for C5: three concretely malformed stored values — no `'$'`
fields, a non-integer iteration count, and an invalid base64 salt — all
verify to `false`. -/
theorem verify_malformed_false_witness :
    (_verify_password (fun _ _ _ => []) "pw" "nonsense" = false)
    ∧ (_verify_password (fun _ _ _ => []) "pw"
        "pbkdf2_sha256$abc$QQ==$QQ==" = false)
    ∧ (_verify_password (fun _ _ _ => []) "pw"
        "pbkdf2_sha256$1000$QQQ$QQ==" = false) :=
  ⟨(verify_malformed_false (fun _ _ _ => []) "pw" "nonsense").1 (by decide),
   ((verify_malformed_false (fun _ _ _ => []) "pw"
      "pbkdf2_sha256$abc$QQ==$QQ==").2 "pbkdf2_sha256".data "abc".data
      "QQ==".data "QQ==".data (by decide)).1 (by decide),
   (((verify_malformed_false (fun _ _ _ => []) "pw"
      "pbkdf2_sha256$1000$QQQ$QQ==").2 "pbkdf2_sha256".data "1000".data
      "QQQ".data "QQ==".data (by decide)).2.1 (by decide))⟩

theorem any_eq_false_all {α : Type} {p : α → Bool} {l : List α}
    (h : l.any p = false) : ∀ x ∈ l, p x = false := by
  intro x hx
  cases hpx : p x with
  | false => rfl
  | true =>
      have : l.any p = true := List.any_eq_true.mpr ⟨x, hx, hpx⟩
      rw [this] at h
      simp at h

/-- C6: credential uniqueness is scoped per tenant — creating a username
that already exists under the same tenant is a conflict
(`User already exists for that tenant`), creating the same username under a
different tenant succeeds and appends the record, and every successful
creation preserves the declared per-`(tenant_schema, username)` and
per-`(tenant_schema, email)` uniqueness invariants. -/
theorem credential_unique_per_tenant
    (kdf : String → List Nat → Nat → List Nat) (salt : List Nat)
    (db : List UserRec) (username password t t' : String) (act : Bool)
    (hv : validate_schema_name t = Except.ok ())
    (hv' : validate_schema_name t' = Except.ok ()) :
    ((∃ u ∈ db, u.username = username ∧ u.tenant_schema = t) →
        create_shared_user kdf salt username password t act none db =
          Except.error "User already exists for that tenant")
    ∧ ((∀ u ∈ db, ¬(u.username = username ∧ u.tenant_schema = t')) →
        ∃ user db2,
          create_shared_user kdf salt username password t' act none db =
            Except.ok (user, db2)
          ∧ user.username = username ∧ user.tenant_schema = t'
          ∧ db2 = db ++ [user])
    ∧ (∀ em user db2,
        create_shared_user kdf salt username password t' act em db =
          Except.ok (user, db2) →
        uniquePerTenantUsername db → uniquePerTenantEmail db →
        uniquePerTenantUsername db2 ∧ uniquePerTenantEmail db2) := by
  refine ⟨?_, ?_, ?_⟩
  · rintro ⟨u, hu, hun, ht⟩
    unfold create_shared_user
    rw [hv]
    have hany : db.any (fun v => v.username == username &&
        v.tenant_schema == t) = true :=
      List.any_eq_true.mpr ⟨u, hu, by simp [hun, ht]⟩
    simp [hany]
  · intro hno
    unfold create_shared_user
    rw [hv']
    have hany : db.any (fun v => v.username == username &&
        v.tenant_schema == t') = false := by
      cases hh : db.any (fun v => v.username == username &&
          v.tenant_schema == t') with
      | false => rfl
      | true =>
          obtain ⟨u, hu, hp⟩ := List.any_eq_true.mp hh
          simp only [Bool.and_eq_true, beq_iff_eq] at hp
          exact absurd hp (hno u hu)
    rw [hany]
    simp only [Bool.false_eq_true, if_false]
    cases hviol : violatesUserConstraints db
        { username := username, email := none,
          password_hash := _hash_password kdf password salt,
          tenant_schema := t', is_active := act } with
    | true =>
        exfalso
        obtain ⟨v, hvmem, hp⟩ := List.any_eq_true.mp hviol
        simp only [Option.isSome_none, Bool.false_and, Bool.or_false,
          Bool.and_eq_true, beq_iff_eq] at hp
        exact hno v hvmem ⟨hp.2, hp.1⟩
    | false =>
        simp only [Bool.false_eq_true, if_false]
        exact ⟨_, _, rfl, rfl, rfl, rfl⟩
  · intro em user db2 hok hU hE
    unfold create_shared_user at hok
    rw [hv'] at hok
    cases hany : db.any (fun v => v.username == username &&
        v.tenant_schema == t') with
    | true => rw [hany] at hok; simp at hok
    | false =>
        rw [hany] at hok
        simp only [Bool.false_eq_true, if_false] at hok
        have hmain : ∀ emv : Option String,
            (if violatesUserConstraints db
                (⟨username, emv, _hash_password kdf password salt, t',
                  act⟩ : UserRec) = true then
              (Except.error "IntegrityError" :
                Except String (UserRec × List UserRec))
            else Except.ok
              ((⟨username, emv, _hash_password kdf password salt, t',
                  act⟩ : UserRec),
               db ++ [(⟨username, emv, _hash_password kdf password salt, t',
                  act⟩ : UserRec)])) =
              Except.ok (user, db2) →
            uniquePerTenantUsername db2 ∧ uniquePerTenantEmail db2 := by
          intro emv hok2
          cases hviol : violatesUserConstraints db
              (⟨username, emv, _hash_password kdf password salt, t',
                act⟩ : UserRec) with
          | true => rw [hviol] at hok2; simp at hok2
          | false =>
              rw [hviol] at hok2
              simp only [Bool.false_eq_true, if_false, Except.ok.injEq,
                Prod.mk.injEq] at hok2
              obtain ⟨hrec, hdb2⟩ := hok2
              subst hrec
              subst hdb2
              have hall := any_eq_false_all hviol
              constructor
              · rw [uniquePerTenantUsername, List.pairwise_append]
                refine ⟨hU, List.pairwise_singleton _ _, ?_⟩
                intro u hu v hv
                rw [List.mem_singleton] at hv
                subst hv
                rintro ⟨h1, h2⟩
                have := hall u hu
                simp [h1, h2] at this
              · rw [uniquePerTenantEmail, List.pairwise_append]
                refine ⟨hE, List.pairwise_singleton _ _, ?_⟩
                intro u hu v hv
                rw [List.mem_singleton] at hv
                subst hv
                rintro ⟨h1, h2, h3⟩
                have := hall u hu
                have hsome : emv.isSome = true := by
                  dsimp only at h2
                  cases hue : u.email with
                  | none => exact absurd hue h3
                  | some x => rw [hue] at h2; rw [← h2]; rfl
                simp [h1, h2.symm, hsome] at this
                rcases this with ⟨_, hne⟩
                dsimp only at h2
                exact hne h2
        cases em with
        | none => exact hmain none hok
        | some e =>
            dsimp only at hok
            by_cases he : e.isEmpty
            · rw [if_pos he] at hok
              simp only [Bool.false_eq_true, if_false] at hok
              exact hmain (some e) hok
            · rw [if_neg he] at hok
              cases hee : db.any (fun v => v.email == some e) with
              | true => rw [hee] at hok; simp at hok
              | false =>
                  rw [hee] at hok
                  simp only [Bool.false_eq_true, if_false] at hok
                  exact hmain (some e) hok

/-- Witness for C6: with `alice` already registered under `clubA`, creating
`alice` under `clubA` conflicts while creating `alice` under `clubB`
succeeds. -/
theorem credential_unique_per_tenant_witness :
    (create_shared_user (fun _ _ _ => [0]) [0] "alice" "s3cret" "clubA" true
        none [⟨"alice", none, "h", "clubA", true⟩] =
      Except.error "User already exists for that tenant")
    ∧ (∃ user db2,
        create_shared_user (fun _ _ _ => [0]) [0] "alice" "s3cret" "clubB"
            true none [⟨"alice", none, "h", "clubA", true⟩] =
          Except.ok (user, db2)
        ∧ user.username = "alice" ∧ user.tenant_schema = "clubB"
        ∧ db2 = [⟨"alice", none, "h", "clubA", true⟩] ++ [user]) :=
  ⟨(credential_unique_per_tenant (fun _ _ _ => [0]) [0]
      [⟨"alice", none, "h", "clubA", true⟩] "alice" "s3cret" "clubA" "clubB"
      true rfl rfl).1
      ⟨⟨"alice", none, "h", "clubA", true⟩, by simp, rfl, rfl⟩,
   (credential_unique_per_tenant (fun _ _ _ => [0]) [0]
      [⟨"alice", none, "h", "clubA", true⟩] "alice" "s3cret" "clubA" "clubB"
      true rfl rfl).2.1 (by decide)⟩

/-- C10: `is_public_path` returns true exactly when some registered entry
matches the path at a segment boundary (equals the entry, extends an entry
ending in `"/"` as a prefix, or extends a non-slash entry followed by
`"/"`), with the root entry matching only `"/"` itself.  Concretely, with
the default entries: `"/"`, `"/login"`, `"/login/next"` and
`"/static/app.css"` are public, while `"/loginfoo"` and `"/members"` are
not — so `"/login"` being public does not leak to `"/loginfoo"`, and no
path is public merely because it starts with `"/"`. -/
theorem is_public_path_segment_boundary :
    (∀ (public_paths : List String) (path : String),
        is_public_path public_paths path = true ↔
          ∃ p ∈ public_paths, matchesAtSegmentBoundary p path)
    ∧ is_public_path DEFAULT_PUBLIC_PATHS "/" = true
    ∧ is_public_path DEFAULT_PUBLIC_PATHS "/login" = true
    ∧ is_public_path DEFAULT_PUBLIC_PATHS "/login/next" = true
    ∧ is_public_path DEFAULT_PUBLIC_PATHS "/static/app.css" = true
    ∧ is_public_path DEFAULT_PUBLIC_PATHS "/loginfoo" = false
    ∧ is_public_path DEFAULT_PUBLIC_PATHS "/members" = false := by
  refine ⟨?_, by decide, by decide, by decide, by decide, by decide, by decide⟩
  intro public_paths path
  unfold is_public_path
  rw [List.any_eq_true]
  constructor
  · rintro ⟨p, hp, hm⟩
    exact ⟨p, hp, (publicEntryMatch_iff p path).mp hm⟩
  · rintro ⟨p, hp, hm⟩
    exact ⟨p, hp, (publicEntryMatch_iff p path).mpr hm⟩

end JK
